import Mathlib

/-!
Shallow embedding of `rust-sermo` (`src/src/lib.rs`), a unifying client for
multiple LLM HTTP APIs, together with proofs of the specification claims.

Modelling conventions:
* Rust `String`/`&str` become Lean `String`; character-level scans work on
  `String.toList` (Rust byte offsets are treated separately where a claim is
  about byte/char-boundary safety).
* `f32` values are carried opaquely as exact decimal pairs (`F32` below);
  they are never computed with.
* `usize` becomes `Nat`, `i32` depth counters become `Int`.
* `serde_json` is an external collaborator; it is modelled by the `Json` tree
  below, a concrete parser (`Json.parse`), and per-type decoders matching the
  derived `Serialize`/`Deserialize` impls of the structs in the source.
-/

/-- Model of the `serde_json` data tree.  A number is the exact decimal
`mant · 10 ^ exp10`, and records whether its lexical form was an integer (no
fraction/exponent part), because `serde_json` distinguishes integer from
floating-point numbers when deserializing. -/
inductive Json where
  | null : Json
  | bool (b : Bool) : Json
  | num (isInt : Bool) (mant : Int) (exp10 : Int) : Json
  | str (s : String) : Json
  | arr (xs : List Json) : Json
  | obj (fs : List (String × Json)) : Json

/-- Opaque carrier for Rust `f32` values: an exact decimal `mant · 10 ^ exp10`.
The code never computes with temperatures, it only stores and serializes
them, so any value carrier is faithful. -/
structure F32 where
  mant : Int
  exp10 : Int
deriving DecidableEq

/-- The `LlmProvider` enum from the source (10 variants, `ollama` is `#[default]`). -/
inductive LlmProvider where
  | ollama
  | openai
  | anthropic
  | google
  | xai
  | mistral
  | deepseek
  | groq
  | together
  | other
deriving DecidableEq

/-- The `LlmProfile` struct from the source. -/
structure LlmProfile where
  provider : LlmProvider
  api_key : String
  model_name : String
  temperature : Option F32
  max_tokens : Option Nat
  api_url : String

/-- The `ChatMessage` struct from the source. -/
structure ChatMessage where
  role : String
  content : String
deriving DecidableEq

/-- The `ChatRequest` struct from the source (standard providers). -/
structure ChatRequest where
  model : String
  messages : List ChatMessage
  temperature : Option F32
  max_tokens : Option Nat

/-- The `ChatRequest_Ollama` struct from the source (adds the `stream` flag). -/
structure ChatRequest_Ollama where
  model : String
  messages : List ChatMessage
  stream : Bool
  temperature : Option F32
  max_tokens : Option Nat

/-- The `ChatChoice` struct from the source. -/
structure ChatChoice where
  message : ChatMessage
deriving DecidableEq

/-- The `ChatResponse` struct from the source. -/
structure ChatResponse where
  choices : List ChatChoice
deriving DecidableEq

/-- Rust `LlmProvider::from_usize` (source lines 255-268). -/
def LlmProvider.from_usize (value : Nat) : LlmProvider :=
  match value with
  | 0 => .ollama
  | 1 => .openai
  | 2 => .anthropic
  | 3 => .google
  | 4 => .xai
  | 5 => .mistral
  | 6 => .deepseek
  | 7 => .groq
  | 8 => .together
  | _ => .other

/-- Rust `LlmProvider::to_string` (source lines 271-284). -/
def LlmProvider.to_string : LlmProvider → String
  | .ollama => "Ollama"
  | .openai => "OpenAI"
  | .anthropic => "Anthropic"
  | .google => "Google Gemini"
  | .xai => "X.ai"
  | .mistral => "Mistral"
  | .deepseek => "Deepseek"
  | .groq => "Groq"
  | .together => "TogetherAI"
  | .other => "Other"

/-- Rust `LlmProvider::to_slug` (source lines 287-300). -/
def LlmProvider.to_slug : LlmProvider → String
  | .ollama => "ollama"
  | .openai => "openai"
  | .anthropic => "anthropic"
  | .google => "google"
  | .xai => "xai"
  | .mistral => "mistral"
  | .deepseek => "deepseek"
  | .groq => "groq"
  | .together => "together"
  | .other => "other"

/-- Rust `LlmProvider::get_completion_url` (source lines 313-326). -/
def LlmProvider.get_completion_url : LlmProvider → String
  | .ollama => "http://localhost:11434/api/chat"
  | .openai => "https://api.openai.com/v1/chat/completions"
  | .anthropic => "https://api.anthropic.com/v1/messages"
  | .google => "https://generativelanguage.googleapis.com/v1beta/models/~model~:generateContent?key=~api_key~"
  | .xai => "https://api.x.ai/v1/chat/completions"
  | .mistral => "https://api.mixtral.ai/v1/chat/completions"
  | .deepseek => "https://api.deepseek.com/v1/chat/completions"
  | .groq => "https://api.groq.com/openai/v1/chat/completions"
  | .together => "https://api.together.xyz/v1/chat/completions"
  | .other => "http://localhost:8000/v1/chat/completions"

/-- ASCII lowercasing of one character (`'A'..'Z'` shifted by 32). -/
def lowerChar (c : Char) : Char :=
  if 65 ≤ c.toNat ∧ c.toNat ≤ 90 then Char.ofNat (c.toNat + 32) else c

/-- Model of Rust's `str::to_lowercase`: per-character lowercasing.  (Rust
lowercases the full Unicode range; the model covers the ASCII range, which
includes every slug the lookup below recognizes — both functions agree on
all ASCII input.) -/
def lowerStr (s : String) : String :=
  String.mk (s.data.map lowerChar)

/-- Rust `LlmProvider::from_str` (source lines 329-342). -/
def LlmProvider.from_str (slug : String) : LlmProvider :=
  match lowerStr slug with
  | "ollama" => .ollama
  | "openai" => .openai
  | "anthropic" => .anthropic
  | "google" => .google
  | "xai" => .xai
  | "mistral" => .mistral
  | "deepseek" => .deepseek
  | "groq" => .groq
  | "together" => .together
  | _ => .other

/-! ### Model of the `serde_json` parser (external collaborator)

`serde_json::from_str::<T>` is modelled as: parse the whole input into a
`Json` tree (whitespace-tolerant, whole-input), then decode the tree per the
derived `Deserialize` impl of `T`.  The parser is fuelled; the fuel supplied
by `Json.from_str_value` is ample for every input. -/

/-- JSON insignificant whitespace skipping. -/
def Json.skipWs : List Char → List Char
  | [] => []
  | c :: rest =>
    if c = ' ' ∨ c = '\t' ∨ c = '\n' ∨ c = '\r' then Json.skipWs rest else c :: rest

/-- Hex digit value, for `\uXXXX` escapes. -/
def Json.hexVal (c : Char) : Option Nat :=
  if '0' ≤ c ∧ c ≤ '9' then some (c.toNat - '0'.toNat)
  else if 'a' ≤ c ∧ c ≤ 'f' then some (c.toNat - 'a'.toNat + 10)
  else if 'A' ≤ c ∧ c ≤ 'F' then some (c.toNat - 'A'.toNat + 10)
  else none

/-- Body of a JSON string literal, after the opening quote; returns the
decoded characters and the remaining input after the closing quote. -/
def Json.parseStringBody : List Char → Option (List Char × List Char)
  | [] => none
  | '"' :: rest => some ([], rest)
  | '\\' :: 'u' :: h1 :: h2 :: h3 :: h4 :: rest =>
    match Json.hexVal h1, Json.hexVal h2, Json.hexVal h3, Json.hexVal h4 with
    | some a, some b, some c, some d =>
      let n := ((a * 16 + b) * 16 + c) * 16 + d
      (Json.parseStringBody rest).map (fun p => (Char.ofNat n :: p.1, p.2))
    | _, _, _, _ => none
  | '\\' :: e :: rest =>
    let dec : Option Char :=
      if e = '"' then some '"'
      else if e = '\\' then some '\\'
      else if e = '/' then some '/'
      else if e = 'b' then some (Char.ofNat 8)
      else if e = 'f' then some (Char.ofNat 12)
      else if e = 'n' then some '\n'
      else if e = 'r' then some '\r'
      else if e = 't' then some '\t'
      else none
    match dec with
    | some c => (Json.parseStringBody rest).map (fun p => (c :: p.1, p.2))
    | none => none
  | c :: rest =>
    if c.toNat < 32 then none
    else (Json.parseStringBody rest).map (fun p => (c :: p.1, p.2))

/-- Digits to a natural number. -/
def Json.digitsToNat (l : List Char) : Nat :=
  l.foldl (fun acc c => acc * 10 + (c.toNat - '0'.toNat)) 0

/-- JSON number literal: `-? int frac? exp?`, with the leading-zero rule.
Returns the exact decimal value and whether the literal was an integer (no
fraction or exponent part), which `serde_json` uses to type the number. -/
def Json.parseNum (l : List Char) : Option (Json × List Char) :=
  let neg := l.head? = some '-'
  let l1 := if l.head? = some '-' then l.tail else l
  let ds := l1.takeWhile Char.isDigit
  let r1 := l1.dropWhile Char.isDigit
  if ds.isEmpty then none
  else if ds.length > 1 ∧ ds.head? = some '0' then none
  else
    let fracP : Option (List Char × List Char) :=
      match r1 with
      | '.' :: r2 =>
        let fds := r2.takeWhile Char.isDigit
        if fds.isEmpty then none else some (fds, r2.dropWhile Char.isDigit)
      | _ => some ([], r1)
    match fracP with
    | none => none
    | some (fds, r2) =>
      let expP : Option (Option Int × List Char) :=
        match r2 with
        | e :: r3 =>
          if e = 'e' ∨ e = 'E' then
            let negE := r3.head? = some '-'
            let r4 := if r3.head? = some '-' ∨ r3.head? = some '+' then r3.tail else r3
            let eds := r4.takeWhile Char.isDigit
            if eds.isEmpty then none
            else
              some (some (if negE then -(Json.digitsToNat eds : Int)
                          else (Json.digitsToNat eds : Int)),
                    r4.dropWhile Char.isDigit)
          else some (none, r2)
        | [] => some (none, r2)
      match expP with
      | none => none
      | some (eo, r5) =>
        let mantNat : Nat := Json.digitsToNat ds * 10 ^ fds.length + Json.digitsToNat fds
        let mant : Int := if neg then -(mantNat : Int) else (mantNat : Int)
        some (.num (fds.isEmpty && eo.isNone) mant ((eo.getD 0) - (fds.length : Int)), r5)

mutual

/-- Fuelled JSON value parser. -/
def Json.parseValue : Nat → List Char → Option (Json × List Char)
  | 0, _ => none
  | fuel + 1, l =>
    match Json.skipWs l with
    | [] => none
    | 'n' :: 'u' :: 'l' :: 'l' :: rest => some (.null, rest)
    | 't' :: 'r' :: 'u' :: 'e' :: rest => some (.bool true, rest)
    | 'f' :: 'a' :: 'l' :: 's' :: 'e' :: rest => some (.bool false, rest)
    | '"' :: rest =>
      (Json.parseStringBody rest).map (fun p => (.str (String.mk p.1), p.2))
    | '[' :: rest =>
      match Json.skipWs rest with
      | ']' :: rest2 => some (.arr [], rest2)
      | rest2 => (Json.parseArrItems fuel rest2).map (fun p => (.arr p.1, p.2))
    | '{' :: rest =>
      match Json.skipWs rest with
      | '}' :: rest2 => some (.obj [], rest2)
      | rest2 => (Json.parseObjItems fuel rest2).map (fun p => (.obj p.1, p.2))
    | l2 => Json.parseNum l2

/-- Comma-separated array items, finished by `]`. -/
def Json.parseArrItems : Nat → List Char → Option (List Json × List Char)
  | 0, _ => none
  | fuel + 1, l =>
    match Json.parseValue fuel l with
    | none => none
    | some (v, rest) =>
      match Json.skipWs rest with
      | ',' :: rest2 =>
        (Json.parseArrItems fuel rest2).map (fun p => (v :: p.1, p.2))
      | ']' :: rest2 => some ([v], rest2)
      | _ => none

/-- Comma-separated `"key": value` members, finished by `}`. -/
def Json.parseObjItems : Nat → List Char → Option (List (String × Json) × List Char)
  | 0, _ => none
  | fuel + 1, l =>
    match Json.skipWs l with
    | '"' :: rest =>
      match Json.parseStringBody rest with
      | none => none
      | some (k, rest2) =>
        match Json.skipWs rest2 with
        | ':' :: rest3 =>
          match Json.parseValue fuel rest3 with
          | none => none
          | some (v, rest4) =>
            match Json.skipWs rest4 with
            | ',' :: rest5 =>
              (Json.parseObjItems fuel rest5).map
                (fun p => ((String.mk k, v) :: p.1, p.2))
            | '}' :: rest5 => some ([(String.mk k, v)], rest5)
            | _ => none
        | _ => none
    | _ => none

end

/-- Parse a whole string as one JSON value (trailing whitespace allowed),
modelling the syntactic part of `serde_json::from_str`. -/
def Json.from_str_value (s : String) : Option Json :=
  match Json.parseValue (2 * s.length + 4) s.toList with
  | some (v, rest) => if (Json.skipWs rest).isEmpty then some v else none
  | none => none

/-! ### Decoders: derived `Deserialize` impls for the source structs -/

/-- Field access in a JSON object, first occurrence (derived serde impls read
fields in input order; the inputs of interest have no duplicate keys). -/
def Json.field (fs : List (String × Json)) (k : String) : Option Json :=
  (fs.find? (fun p => p.1 = k)).map (fun p => p.2)

/-- Derived `Deserialize` for `ChatMessage`: both fields required, of string
type; unknown fields are ignored (serde default). -/
def ChatMessage.fromJson : Json → Except String ChatMessage
  | .obj fs =>
    match Json.field fs "role", Json.field fs "content" with
    | some (.str r), some (.str c) => .ok ⟨r, c⟩
    | some (.str _), some _ => .error "invalid type for field content"
    | some (.str _), none => .error "missing field content"
    | some _, _ => .error "invalid type for field role"
    | none, _ => .error "missing field role"
  | _ => .error "invalid type: expected struct ChatMessage"

/-- Derived `Deserialize` for `ChatChoice`. -/
def ChatChoice.fromJson : Json → Except String ChatChoice
  | .obj fs =>
    match Json.field fs "message" with
    | some j => (ChatMessage.fromJson j).map (fun m => ⟨m⟩)
    | none => .error "missing field message"
  | _ => .error "invalid type: expected struct ChatChoice"

/-- Decode every element of a JSON array. -/
def ChatChoice.fromJsonList : List Json → Except String (List ChatChoice)
  | [] => .ok []
  | j :: rest =>
    match ChatChoice.fromJson j, ChatChoice.fromJsonList rest with
    | .ok c, .ok cs => .ok (c :: cs)
    | .error e, _ => .error e
    | _, .error e => .error e

/-- Derived `Deserialize` for `ChatResponse`. -/
def ChatResponse.fromJson : Json → Except String ChatResponse
  | .obj fs =>
    match Json.field fs "choices" with
    | some (.arr xs) => (ChatChoice.fromJsonList xs).map (fun cs => ⟨cs⟩)
    | some _ => .error "invalid type for field choices"
    | none => .error "missing field choices"
  | _ => .error "invalid type: expected struct ChatResponse"

/-- Model of `serde_json::from_str::<T>`, given `T`'s tree decoder: syntax first, then
decoding; either failure reports a message. -/
def serdeFromStr (decode : Json → Except String α) (s : String) : Except String α :=
  match Json.from_str_value s with
  | none => .error "expected value"
  | some j => decode j

/-- Model of `serde_json::from_str::<i64>`: requires an integer literal in range. -/
def deserI64 (s : String) : Option Int :=
  match Json.from_str_value s with
  | some (.num true mant _) =>
    if -(9223372036854775808 : Int) ≤ mant ∧ mant < (9223372036854775808 : Int) then
      some mant
    else none
  | _ => none

/-- Model of `serde_json::from_str::<String>`: requires a string literal. -/
def deserString (s : String) : Option String :=
  match Json.from_str_value s with
  | some (.str v) => some v
  | _ => none

/-! ### Serialization: derived `Serialize` impls, at the `Json`-tree level

`serde_json::to_string` is factored as (printer) ∘ (tree building); the claims
about the payload concern the tree, in particular how `Option` fields are
emitted.  serde's default for an `Option` field with no
`skip_serializing_if` attribute is to emit the field with value `null`. -/

/-- Derived `Serialize` for `ChatMessage`. -/
def ChatMessage.toJson (m : ChatMessage) : Json :=
  .obj [("role", .str m.role), ("content", .str m.content)]

/-- serde default serialization of `Option<f32>`: `None` becomes `null`. -/
def jsonOfOptTemp : Option F32 → Json
  | none => .null
  | some t => .num false t.mant t.exp10

/-- serde default serialization of `Option<usize>`: `None` becomes `null`. -/
def jsonOfOptTokens : Option Nat → Json
  | none => .null
  | some n => .num true (n : Int) 0

/-- Derived `Serialize` for `ChatRequest` (fields in declaration order). -/
def ChatRequest.toJson (r : ChatRequest) : Json :=
  .obj [("model", .str r.model),
        ("messages", .arr (r.messages.map ChatMessage.toJson)),
        ("temperature", jsonOfOptTemp r.temperature),
        ("max_tokens", jsonOfOptTokens r.max_tokens)]

/-- Derived `Serialize` for `ChatRequest_Ollama` (fields in declaration order). -/
def ChatRequest_Ollama.toJson (r : ChatRequest_Ollama) : Json :=
  .obj [("model", .str r.model),
        ("messages", .arr (r.messages.map ChatMessage.toJson)),
        ("stream", .bool r.stream),
        ("temperature", jsonOfOptTemp r.temperature),
        ("max_tokens", jsonOfOptTokens r.max_tokens)]

/-! ### Request building (`send_single` / `send_ollama`, source lines 76-117) -/

/-- The `ChatRequest` built by `send_single` (source lines 83-91). -/
def LlmProfile.send_single_request (self : LlmProfile) (message : String) : ChatRequest :=
  { model := self.model_name,
    messages := [{ role := "user", content := message }],
    temperature := self.temperature,
    max_tokens := self.max_tokens }

/-- The `ChatRequest_Ollama` built by `send_ollama` (source lines 102-111). -/
def LlmProfile.send_ollama_request (self : LlmProfile) (message : String) : ChatRequest_Ollama :=
  { model := self.model_name,
    stream := false,
    messages := [{ role := "user", content := message }],
    temperature := self.temperature,
    max_tokens := self.max_tokens }

/-- The JSON payload serialized by `send_single`: Ollama is diverted to
`send_ollama` (source line 78-80), every other provider uses the standard
shape. -/
def LlmProfile.send_single_payload (self : LlmProfile) (message : String) : Json :=
  if self.provider = LlmProvider.ollama then
    (self.send_ollama_request message).toJson
  else
    (self.send_single_request message).toJson

/-! ### Transport and response handling (`send`, source lines 120-168) -/

/-- The two `std::io::ErrorKind`s the source constructs. -/
inductive IoErrorKind where
  | invalidData
  | other
deriving DecidableEq

/-- Rust `std::io::Error` as the source uses it: a kind plus a message. -/
structure IoError where
  kind : IoErrorKind
  msg : String
deriving DecidableEq

/-- The HTTP response handed back by the transport collaborator. -/
structure HttpResponse where
  status_code : Nat
  body : String

/-- URL resolution in `send` (source lines 126-134): custom `api_url` when
non-empty, else the provider default, then textual substitution of the
`~model~` and `~api_key~` placeholders. -/
def LlmProfile.resolve_url (self : LlmProfile) : String :=
  let url := if self.api_url.isEmpty then self.provider.get_completion_url else self.api_url
  (url.replace "~model~" self.model_name).replace "~api_key~" self.api_key

/-- Response-body handling in `send` (source lines 150-167): Ollama bodies are
a bare `ChatChoice`; all other providers give a `ChatResponse` whose first
choice is used, an empty list being a distinct error. -/
def LlmProvider.extract_completion (provider : LlmProvider) (body : String) : Except IoError String :=
  if provider = LlmProvider.ollama then
    match serdeFromStr ChatChoice.fromJson body with
    | .error e => .error ⟨.invalidData, e⟩
    | .ok c => .ok c.message.content
  else
    match serdeFromStr ChatResponse.fromJson body with
    | .error e => .error ⟨.invalidData, e⟩
    | .ok r =>
      match r.choices with
      | [] => .error ⟨.other, "No choices in response"⟩
      | c :: _ => .ok c.message.content

/-- The part of `send` that consumes the transport's response (source lines
143-167): any status other than 200 is a terminal HTTP-status error, only on
200 is the body handed to the response extractor. -/
def LlmProfile.send_response (self : LlmProfile) (res : HttpResponse) : Except IoError String :=
  if res.status_code ≠ 200 then
    .error ⟨.other, "HTTP error: " ++ toString res.status_code⟩
  else
    self.provider.extract_completion res.body

/-! ### Embedded-JSON extraction (`extract_json`, source lines 171-201)

The Rust function works on byte offsets; the model works on the character
list.  `input.find(start_char)` is modelled by `findIdx?`, the slice
`&input[start_idx..]` by `dropWhile`, and the final slice
`&input[start_idx..end_idx]` by `take` of the relative end position.  The
byte-offset arithmetic itself is modelled separately by `scanLoopB` below,
for the char-boundary safety claim. -/

/-- The depth-scan loop of `extract_json` (source lines 176-190), running on
the slice that begins at the first opening delimiter.  State mirrors the Rust
loop: `depth` (an `i32`, modelled as `Int`), the current position `i`, and
`end_idx` (0 until the break assigns it).  Returns the final
`(end_idx, depth)` pair; positions count characters. -/
def scanLoop (sc ec : Char) : List Char → Int → Nat → Nat → Nat × Int
  | [], depth, _, end_idx => (end_idx, depth)
  | c :: rest, depth, i, end_idx =>
    if c = sc then scanLoop sc ec rest (depth + 1) (i + 1) end_idx
    else if c = ec then
      if depth - 1 = 0 then (i + 1, depth - 1)
      else scanLoop sc ec rest (depth - 1) (i + 1) end_idx
    else scanLoop sc ec rest depth (i + 1) end_idx

/-- Rust `LlmProfile::extract_json` (source lines 171-201).  The type-specific
`serde_json` deserializer for `T` is the parameter `deser`; the `self`
receiver is taken, as in Rust, although the body never reads it. -/
def LlmProfile.extract_json (_self : LlmProfile) (deser : String → Option α)
    (input : String) (is_object : Bool) : Option α :=
  let start_char := if is_object then '{' else '['
  match input.toList.findIdx? (fun c => c = start_char) with
  | none => none
  | some _ =>
    let slice := input.toList.dropWhile (fun c => ¬ c = start_char)
    let end_char := if is_object then '}' else ']'
    let r := scanLoop start_char end_char slice 0 0 0
    if r.1 = 0 ∨ r.2 ≠ 0 then none
    else deser (String.mk (slice.take r.1))

/-- Depth contribution of one character: +1 on the opening delimiter, -1 on
the closing one, 0 otherwise. -/
def specDelta (sc ec : Char) (c : Char) : Int :=
  if c = sc then 1 else if c = ec then -1 else 0

/-- Depth after a list of characters: opening occurrences minus closing
occurrences. -/
def specDepth (sc ec : Char) (l : List Char) : Int :=
  (l.map (specDelta sc ec)).sum

/-- Candidate substring selection as the specification words it (§4.5): scan
for the first occurrence of the opening delimiter; increment a depth counter
on each opening delimiter and decrement it on each matching closing
delimiter; the candidate ends at the first position where the depth returns
to zero (start delimiter through matching end delimiter, inclusive).  If no
opening delimiter exists, or the depth never returns to exactly zero before
the input ends, there is no candidate. -/
def specExtractCandidate (input : List Char) (is_object : Bool) : Option (List Char) :=
  let sc := if is_object then '{' else '['
  let ec := if is_object then '}' else ']'
  if sc ∈ input then
    let tail := input.dropWhile (fun c => ¬ c = sc)
    match (List.range tail.length).find? (fun n => specDepth sc ec (tail.take (n + 1)) = 0) with
    | some n => some (tail.take (n + 1))
    | none => none
  else none

/-- Position (chars consumed, counting from 1) at which the running depth,
started at `d`, first becomes zero. -/
def firstZero (sc ec : Char) : List Char → Int → Option Nat
  | [], _ => none
  | c :: rest, d =>
    let d2 := d + specDelta sc ec c
    if d2 = 0 then some 1 else (firstZero sc ec rest d2).map (fun k => k + 1)

/-- The sequence of depth values taken by the `extract_json` scan (the value
after each loop iteration, stopping where the Rust loop breaks). -/
def depthTrace (sc ec : Char) : List Char → Int → List Int
  | [], _ => []
  | c :: rest, d =>
    if c = sc then (d + 1) :: depthTrace sc ec rest (d + 1)
    else if c = ec then
      if d - 1 = 0 then [d - 1]
      else (d - 1) :: depthTrace sc ec rest (d - 1)
    else d :: depthTrace sc ec rest d

/-- Total UTF-8 byte length of a character list. -/
def utf8Len (l : List Char) : Nat :=
  (l.map Char.utf8Size).sum

/-- The byte index returned by `input.find(start_char)` in the source: the
UTF-8 length of everything before the first occurrence. -/
def byteStartIdx (input : List Char) (sc : Char) : Nat :=
  utf8Len (input.takeWhile (fun c => ¬ c = sc))

/-- The scan of `extract_json` with the position tracked in bytes, exactly as
the Rust `char_indices` loop does; on the break the source adds the literal
`1` (the closing delimiter is one UTF-8 byte). -/
def scanLoopB (sc ec : Char) : List Char → Int → Nat → Nat → Nat × Int
  | [], depth, _, end_idx => (end_idx, depth)
  | c :: rest, depth, i, end_idx =>
    if c = sc then scanLoopB sc ec rest (depth + 1) (i + c.utf8Size) end_idx
    else if c = ec then
      if depth - 1 = 0 then (i + 1, depth - 1)
      else scanLoopB sc ec rest (depth - 1) (i + c.utf8Size) end_idx
    else scanLoopB sc ec rest depth (i + c.utf8Size) end_idx

/-- Predicate: `n` is a UTF-8 character boundary of the text `l`. -/
def IsCharBoundary (l : List Char) (n : Nat) : Prop :=
  ∃ p q, l = p ++ q ∧ n = utf8Len p

/-! ### Models of the two regular expressions in `extract_json_flexible`

`Regex::new` on these constant patterns always succeeds, so the `.ok()?`
steps in the source never yield `None`; the models are the match semantics of
the compiled patterns (leftmost-first, as in the `regex` crate).  `\w` (for
`\b`) and `\d` are modelled at ASCII level, which covers the slugs, literals
and digits these patterns are used on. -/

/-- Matcher for the tail of `"([^"\\]|\\[\s\S])*"` after an opening quote:
consume backslash-escaped pairs or plain characters until an unescaped
closing quote; the repetition is deterministic because no alternative can
consume an unescaped `"`.  Returns the consumed characters including the
closing quote. -/
def stringTail : List Char → Option (List Char)
  | [] => none
  | '"' :: _ => some ['"']
  | '\\' :: c :: rest => (stringTail rest).map (fun t => '\\' :: c :: t)
  | ['\\'] => none
  | c :: rest => (stringTail rest).map (fun t => c :: t)

/-- Leftmost match of the quoted-string pattern: the earliest position at
which a complete match starts (every match starts at a `"`). -/
def stringFind : List Char → Option (List Char)
  | [] => none
  | '"' :: rest =>
    match stringTail rest with
    | some t => some ('"' :: t)
    | none => stringFind rest
  | _ :: rest => stringFind rest

/-- Word character for `\b`, ASCII fragment of the regex crate's `\w`. -/
def isWordChar (c : Char) : Bool :=
  c.isAlphanum || c = '_'

/-- Wordness of an optional character; out-of-bounds counts as non-word. -/
def wordOpt : Option Char → Bool
  | none => false
  | some c => isWordChar c

/-- Returns `true` when the position after a digit is a trailing word boundary. -/
def digitBoundaryAfter (rest : List Char) : Bool :=
  match rest.head? with
  | none => true
  | some c => ¬ isWordChar c

/-- Exponent part `[eE][+-]?\d+` (greedy; deterministic because a present
sign with no following digit allows no shorter successful parse). -/
def expAt (l : List Char) : Option (List Char × List Char) :=
  match l with
  | e :: r =>
    if e = 'e' ∨ e = 'E' then
      match r with
      | s :: r2 =>
        if s = '+' ∨ s = '-' then
          let eds := r2.takeWhile Char.isDigit
          if eds.isEmpty then none
          else some (e :: s :: eds, r2.dropWhile Char.isDigit)
        else
          let eds := r.takeWhile Char.isDigit
          if eds.isEmpty then none
          else some (e :: eds, r.dropWhile Char.isDigit)
      | [] => none
    else none
  | [] => none

/-- Fraction part `\.\d+` (greedy). -/
def fracAt (l : List Char) : Option (List Char × List Char) :=
  match l with
  | '.' :: r =>
    let fds := r.takeWhile Char.isDigit
    if fds.isEmpty then none
    else some ('.' :: fds, r.dropWhile Char.isDigit)
  | _ => none

/-- Number alternative `-?\d+(\.\d+)?([eE][+-]?\d+)?\b` at a fixed start
position.  Digit runs are maximal (a shorter run leaves a digit next, which
always fails the trailing `\b`); the two optional groups backtrack in
leftmost-first priority: fraction-and-exponent, fraction only, exponent
only, neither. -/
def numAt (l : List Char) : Option (List Char) :=
  let signChars : List Char := if l.head? = some '-' then ['-'] else []
  let r := if l.head? = some '-' then l.tail else l
  let ds := r.takeWhile Char.isDigit
  if ds.isEmpty then none
  else
    let r1 := r.dropWhile Char.isDigit
    let base := signChars ++ ds
    let opts : List (List Char × List Char) :=
      (match fracAt r1 with
       | some (fc, r2) =>
         (match expAt r2 with
          | some (ex, r3) => [(base ++ fc ++ ex, r3)]
          | none => []) ++ [(base ++ fc, r2)]
       | none => []) ++
      (match expAt r1 with
       | some (ex, r3) => [(base ++ ex, r3)]
       | none => []) ++
      [(base, r1)]
    (opts.find? (fun p => digitBoundaryAfter p.2)).map (fun p => p.1)

/-- Literal alternative (`true`/`false`/`null`) at a fixed start position,
with its trailing word boundary (the literals end in a word character). -/
def litAt (lit : List Char) (l : List Char) : Option (List Char) :=
  if lit.isPrefixOf l ∧ wordOpt (l.drop lit.length).head? = false then some lit
  else none

/-- The scalar pattern's alternation at a fixed start position, in the
pattern's order: `true`, `false`, `null`, then the number branch. -/
def scalarAt (l : List Char) : Option (List Char) :=
  match litAt "true".toList l with
  | some m => some m
  | none =>
  match litAt "false".toList l with
  | some m => some m
  | none =>
  match litAt "null".toList l with
  | some m => some m
  | none => numAt l

/-- Leftmost match of the scalar pattern: scan positions left to right,
requiring the leading `\b` (wordness of the previous character differs from
wordness of the first matched character). -/
def scalarFindAux : Option Char → List Char → Option (List Char)
  | _, [] => none
  | prev, c :: rest =>
    match (if wordOpt prev ≠ isWordChar c then scalarAt (c :: rest) else none) with
    | some m => some m
    | none => scalarFindAux (some c) rest

/-- Leftmost match of `\b(true|false|null|-?\d+(\.\d+)?([eE][+-]?\d+)?)\b`. -/
def scalarFind (l : List Char) : Option (List Char) :=
  scalarFindAux none l

/-- Rust `LlmProfile::extract_json_flexible` (source lines 204-232): object
extraction, then array extraction, then the first quoted string literal,
then the first bare scalar literal, each attempt deserialized with the same
type-specific deserializer; a found-but-undeserializable match falls through
to the next attempt. -/
def LlmProfile.extract_json_flexible (self : LlmProfile) (deser : String → Option α)
    (input : String) : Option α :=
  match self.extract_json deser input true with
  | some result => some result
  | none =>
  match self.extract_json deser input false with
  | some result => some result
  | none =>
  match (stringFind input.toList).bind (fun m => deser (String.mk m)) with
  | some value => some value
  | none => (scalarFind input.toList).bind (fun m => deser (String.mk m))

/-- Whether a serialized object carries a field named `k` at all. -/
def Json.hasField (j : Json) (k : String) : Bool :=
  match j with
  | .obj fs => (fs.map Prod.fst).contains k
  | _ => false

/-- The value a serialized object carries for field `k` (first occurrence). -/
def Json.lookupField (j : Json) (k : String) : Option Json :=
  match j with
  | .obj fs => List.lookup k fs
  | _ => none

/-! ### Sample profiles used by witnesses and counterexamples -/

/-- A standard-provider profile with both generation options absent. -/
def sampleOpenAI : LlmProfile :=
  { provider := .openai, api_key := "k0", model_name := "gpt-4o",
    temperature := none, max_tokens := none, api_url := "" }

/-- An Ollama profile with both generation options absent. -/
def sampleOllama : LlmProfile :=
  { provider := .ollama, api_key := "", model_name := "llama3",
    temperature := none, max_tokens := none, api_url := "" }

/-- A Google profile, whose default URL carries both placeholders. -/
def sampleGoogle : LlmProfile :=
  { provider := .google, api_key := "K123", model_name := "gemini",
    temperature := none, max_tokens := none, api_url := "" }

/-- C5: for every profile, the resolved target URL equals the provider's
default URL when `api_url` is empty and the custom `api_url` when non-empty,
in both cases with the `~model~` placeholder replaced by the model name and
the `~api_key~` placeholder replaced by the API key. -/
theorem c5_resolve_url (p : LlmProfile) :
    (p.api_url = "" →
      p.resolve_url =
        ((p.provider.get_completion_url).replace "~model~" p.model_name).replace
          "~api_key~" p.api_key) ∧
    (p.api_url ≠ "" →
      p.resolve_url =
        ((p.api_url).replace "~model~" p.model_name).replace "~api_key~" p.api_key) := by
  constructor
  · intro h
    have h1 : p.api_url.isEmpty = true := (String.isEmpty_iff p.api_url).mpr h
    simp [LlmProfile.resolve_url, h1]
  · intro h
    have h2 : p.api_url.isEmpty = false := by
      rcases hv : p.api_url.isEmpty with _ | _
      · rfl
      · exact absurd ((String.isEmpty_iff p.api_url).mp hv) h
    simp [LlmProfile.resolve_url, h2]

/-- C5 witness: the Google profile resolves through the default template. -/
theorem c5_resolve_url_witness :
    sampleGoogle.resolve_url =
      ((LlmProvider.google.get_completion_url).replace "~model~" "gemini").replace
        "~api_key~" "K123" :=
  (c5_resolve_url sampleGoogle).1 rfl

/-- C7: `from_usize` maps 0-8 to the nine concrete providers in order, and
every other value of its `usize` (here `Nat`) domain to `other`; negative
indices do not inhabit the domain. -/
theorem c7_from_usize :
    (LlmProvider.from_usize 0 = .ollama ∧ LlmProvider.from_usize 1 = .openai ∧
     LlmProvider.from_usize 2 = .anthropic ∧ LlmProvider.from_usize 3 = .google ∧
     LlmProvider.from_usize 4 = .xai ∧ LlmProvider.from_usize 5 = .mistral ∧
     LlmProvider.from_usize 6 = .deepseek ∧ LlmProvider.from_usize 7 = .groq ∧
     LlmProvider.from_usize 8 = .together) ∧
    ∀ n : Nat, 9 ≤ n → LlmProvider.from_usize n = .other := by
  refine ⟨by decide, ?_⟩
  intro n hn
  obtain ⟨m, rfl⟩ : ∃ m, n = m + 9 := ⟨n - 9, by omega⟩
  rfl

/-- C7 witness: index 100 maps to `other`. -/
theorem c7_from_usize_witness : LlmProvider.from_usize 100 = .other :=
  c7_from_usize.2 100 (by decide)

/-- C8: a response status other than exactly 200 is a terminal HTTP-status
error carrying the numeric code, and the body is not parsed: the outcome is
invariant under changing the body. -/
theorem c8_non_200 (p : LlmProfile) (res : HttpResponse) (h : res.status_code ≠ 200) :
    p.send_response res = .error ⟨.other, "HTTP error: " ++ toString res.status_code⟩ ∧
    ∀ body2 : String, p.send_response ⟨res.status_code, body2⟩ = p.send_response res := by
  constructor
  · simp [LlmProfile.send_response, h]
  · intro body2
    simp [LlmProfile.send_response, h]

/-- C8 witness: a 500 response is the HTTP-status error, for any body. -/
theorem c8_non_200_witness :
    sampleOpenAI.send_response ⟨500, "\x7b\"choices\":[]\x7d"⟩ =
      .error ⟨.other, "HTTP error: 500"⟩ :=
  (c8_non_200 sampleOpenAI ⟨500, "\x7b\"choices\":[]\x7d"⟩ (by decide)).1

/-- C9: both extraction entry points ignore every field of the profile: any
two profiles give identical results on the same deserializer and input (and,
the model being a pure function, repeated calls agree by reflexivity). -/
theorem c9_extraction_pure {α : Type} (p q : LlmProfile) (deser : String → Option α)
    (input : String) (is_object : Bool) :
    p.extract_json deser input is_object = q.extract_json deser input is_object ∧
    p.extract_json_flexible deser input = q.extract_json_flexible deser input :=
  ⟨rfl, rfl⟩

/-- C2 counterexample: with both generation options absent, the serialized
payload still carries the `temperature` and `max_tokens` fields (with value
`null`); the claim's omission of absent optional fields is false — the
source structs have no `skip_serializing_if` attribute, so serde's default
null-emission applies. -/
theorem c2_payload_counterexample :
    ¬ (Json.hasField (sampleOpenAI.send_single_payload "hi") "temperature" = false ∧
       Json.hasField (sampleOpenAI.send_single_payload "hi") "max_tokens" = false) := by
  decide

/-- C2 (amended): the builder selects the Ollama shape (which carries
`stream = false`) exactly when the provider is ollama and the standard shape
(no `stream` field) otherwise, wraps the message in exactly one user-role
`ChatMessage`, and — amended — emits absent `temperature`/`max_tokens` as
`null` fields rather than omitting them. -/
theorem c2_request_shape (p : LlmProfile) (msg : String) :
    (p.provider = .ollama →
      p.send_single_payload msg = (p.send_ollama_request msg).toJson ∧
      (p.send_ollama_request msg).stream = false ∧
      (p.send_ollama_request msg).messages = [⟨"user", msg⟩] ∧
      Json.lookupField (p.send_single_payload msg) "stream" = some (.bool false)) ∧
    (p.provider ≠ .ollama →
      p.send_single_payload msg = (p.send_single_request msg).toJson ∧
      (p.send_single_request msg).messages = [⟨"user", msg⟩] ∧
      Json.hasField (p.send_single_payload msg) "stream" = false) ∧
    (p.temperature = none →
      Json.lookupField (p.send_single_payload msg) "temperature" = some .null) ∧
    (p.max_tokens = none →
      Json.lookupField (p.send_single_payload msg) "max_tokens" = some .null) := by
  refine ⟨?_, ?_, ?_, ?_⟩
  · intro h
    refine ⟨by simp [LlmProfile.send_single_payload, h], rfl, rfl, ?_⟩
    simp [LlmProfile.send_single_payload, h, LlmProfile.send_ollama_request,
      ChatRequest_Ollama.toJson, Json.lookupField, List.lookup]
  · intro h
    refine ⟨by simp [LlmProfile.send_single_payload, h], rfl, ?_⟩
    simp [LlmProfile.send_single_payload, h, LlmProfile.send_single_request,
      ChatRequest.toJson, Json.hasField]
  · intro h
    by_cases hp : p.provider = .ollama
    · simp [LlmProfile.send_single_payload, hp, LlmProfile.send_ollama_request,
        ChatRequest_Ollama.toJson, Json.lookupField, List.lookup, h, jsonOfOptTemp]
    · simp [LlmProfile.send_single_payload, hp, LlmProfile.send_single_request,
        ChatRequest.toJson, Json.lookupField, List.lookup, h, jsonOfOptTemp]
  · intro h
    by_cases hp : p.provider = .ollama
    · simp [LlmProfile.send_single_payload, hp, LlmProfile.send_ollama_request,
        ChatRequest_Ollama.toJson, Json.lookupField, List.lookup, h, jsonOfOptTokens]
    · simp [LlmProfile.send_single_payload, hp, LlmProfile.send_single_request,
        ChatRequest.toJson, Json.lookupField, List.lookup, h, jsonOfOptTokens]

/-- C2 witness: the Ollama profile takes the Ollama shape; the OpenAI profile
has no `stream` field and a `null` `temperature` field. -/
theorem c2_request_shape_witness :
    sampleOllama.send_single_payload "hi" = (sampleOllama.send_ollama_request "hi").toJson ∧
    Json.hasField (sampleOpenAI.send_single_payload "hi") "stream" = false ∧
    Json.lookupField (sampleOpenAI.send_single_payload "hi") "temperature" = some .null :=
  ⟨((c2_request_shape sampleOllama "hi").1 rfl).1,
   ((c2_request_shape sampleOpenAI "hi").2.1 (by decide)).2.2,
   ((c2_request_shape sampleOpenAI "hi").2.2.1 rfl)⟩

/-- C4: an ollama body is deserialized directly as the single-message shape;
any other provider's body is deserialized as the choices list, where a parse
failure is an invalid-data error carrying the parser's message, an empty
list is the distinct "No choices in response" error, and otherwise the first
choice's content is returned; the two failure kinds are never equal. -/
theorem c4_response_extraction (body : String) :
    (LlmProvider.extract_completion .ollama body =
      match serdeFromStr ChatChoice.fromJson body with
      | .ok c => .ok c.message.content
      | .error e => .error ⟨.invalidData, e⟩) ∧
    (∀ prov : LlmProvider, prov ≠ .ollama →
      (∀ e, serdeFromStr ChatResponse.fromJson body = .error e →
        prov.extract_completion body = .error ⟨.invalidData, e⟩) ∧
      (serdeFromStr ChatResponse.fromJson body = .ok ⟨[]⟩ →
        prov.extract_completion body = .error ⟨.other, "No choices in response"⟩) ∧
      (∀ c rest, serdeFromStr ChatResponse.fromJson body = .ok ⟨c :: rest⟩ →
        prov.extract_completion body = .ok c.message.content)) ∧
    (∀ e, (⟨.invalidData, e⟩ : IoError) ≠ ⟨.other, "No choices in response"⟩) := by
  refine ⟨?_, ?_, ?_⟩
  · cases h : serdeFromStr ChatChoice.fromJson body with
    | ok c => simp [LlmProvider.extract_completion, h]
    | error e => simp [LlmProvider.extract_completion, h]
  · intro prov hp
    refine ⟨?_, ?_, ?_⟩
    · intro e he
      simp [LlmProvider.extract_completion, hp, he]
    · intro he
      simp [LlmProvider.extract_completion, hp, he]
    · intro c rest he
      simp [LlmProvider.extract_completion, hp, he]
  · intro e he
    have hk : IoErrorKind.invalidData = IoErrorKind.other := congrArg IoError.kind he
    exact absurd hk (by decide)

/-- C4 witness: concrete bodies exercising all three outcomes. -/
theorem c4_response_extraction_witness :
    LlmProvider.extract_completion .openai "\x7b\"choices\":[]\x7d" =
      .error ⟨.other, "No choices in response"⟩ ∧
    LlmProvider.extract_completion .openai "nonsense" =
      .error ⟨.invalidData, "expected value"⟩ ∧
    LlmProvider.extract_completion .ollama
      "\x7b\"message\":\x7b\"role\":\"assistant\",\"content\":\"hi\"\x7d\x7d" = .ok "hi" :=
  ⟨((c4_response_extraction "\x7b\"choices\":[]\x7d").2.1 .openai (by decide)).2.1 rfl,
   ((c4_response_extraction "nonsense").2.1 .openai (by decide)).1 "expected value" rfl,
   (c4_response_extraction
     "\x7b\"message\":\x7b\"role\":\"assistant\",\"content\":\"hi\"\x7d\x7d").1.trans rfl⟩

/-- Lemma: `Char.ofNat` inverts `toNat` on valid code points. -/
theorem char_toNat_ofNat_of_valid {n : Nat} (h : n.isValidChar) :
    (Char.ofNat n).toNat = n := by
  rw [Char.ofNat, dif_pos h]
  rfl

/-- A lowercased character is never an ASCII uppercase letter. -/
theorem lowerChar_not_upper (c : Char) :
    ¬ (65 ≤ (lowerChar c).toNat ∧ (lowerChar c).toNat ≤ 90) := by
  simp only [lowerChar]
  by_cases h : 65 ≤ c.toNat ∧ c.toNat ≤ 90
  · rw [if_pos h, char_toNat_ofNat_of_valid (Or.inl (by omega))]
    omega
  · rw [if_neg h]
    omega

/-- Per-character lowercasing is idempotent. -/
theorem lowerChar_idem (c : Char) : lowerChar (lowerChar c) = lowerChar c := by
  have h2 := lowerChar_not_upper c
  generalize hd : lowerChar c = d at h2 ⊢
  rw [lowerChar, if_neg h2]

/-- String lowercasing is idempotent. -/
theorem lowerStr_idem (s : String) : lowerStr (lowerStr s) = lowerStr s := by
  simp only [lowerStr]
  congr 1
  rw [List.map_map]
  exact List.map_congr_left (fun c _ => lowerChar_idem c)

/-- C6: `from_str` round-trips with `to_slug` on every provider other than
`other`; the lookup is case-insensitive (it only sees the lowercased input);
and every unrecognized input — every string whose lowercasing is none of the
nine recognized slugs, e.g. "bogus" — maps to `other`, so the function is
total and never fails. -/
theorem c6_from_str_to_slug :
    (∀ p : LlmProvider, p ≠ .other → LlmProvider.from_str p.to_slug = p) ∧
    (∀ s : String, LlmProvider.from_str s = LlmProvider.from_str (lowerStr s)) ∧
    (∀ s : String,
      lowerStr s ∉ (["ollama", "openai", "anthropic", "google", "xai", "mistral",
        "deepseek", "groq", "together"] : List String) →
      LlmProvider.from_str s = .other) ∧
    LlmProvider.from_str "bogus" = .other := by
  refine ⟨?_, ?_, ?_, by decide⟩
  · intro p _hp
    cases p <;> decide
  · intro s
    conv_rhs => rw [LlmProvider.from_str]
    rw [lowerStr_idem]
    rfl
  · intro s h
    unfold LlmProvider.from_str
    split <;> simp_all

/-- C6 witness: a concrete round-trip, a concrete mixed-case lookup, and a
concrete unrecognized input mapped through the universal fallback. -/
theorem c6_from_str_to_slug_witness :
    LlmProvider.from_str LlmProvider.openai.to_slug = .openai ∧
    LlmProvider.from_str "OLLAMA" = LlmProvider.from_str (lowerStr "OLLAMA") ∧
    LlmProvider.from_str "deepseek-chat" = .other := by
  exact ⟨c6_from_str_to_slug.1 .openai (by decide), c6_from_str_to_slug.2.1 "OLLAMA",
    c6_from_str_to_slug.2.2.1 "deepseek-chat" (by decide)⟩

/-- Unfolding of `specDepth` over a cons. -/
theorem specDepth_cons (sc ec c : Char) (l : List Char) :
    specDepth sc ec (c :: l) = specDelta sc ec c + specDepth sc ec l := by
  simp [specDepth]

/-- The loop of `extract_json` breaks exactly at the first return of the
running depth to zero, provided the depth is already positive; if the depth
never returns to zero the loop ends with `end_idx` still 0 and the final
depth. -/
theorem scanLoop_eq_firstZero (sc ec : Char) :
    ∀ (l : List Char) (d : Int) (i : Nat), 1 ≤ d →
      scanLoop sc ec l d i 0 =
        (match firstZero sc ec l d with
         | some k => (i + k, 0)
         | none => (0, d + specDepth sc ec l)) := by
  intro l
  induction l with
  | nil =>
    intro d i _hd
    simp [scanLoop, firstZero, specDepth]
  | cons c rest ih =>
    intro d i hd
    by_cases hsc : c = sc
    · have hdelta : specDelta sc ec c = 1 := by simp [specDelta, hsc]
      have hne1 : ¬ ((d : Int) + 1 = 0) := by omega
      simp only [scanLoop, firstZero, if_pos hsc, hdelta, if_neg hne1]
      rw [ih (d + 1) (i + 1) (by omega)]
      cases hfz : firstZero sc ec rest (d + 1) with
      | none =>
        simp only [hfz, Option.map_none']
        rw [specDepth_cons, hdelta]
        have h2 : d + (1 + specDepth sc ec rest) = d + 1 + specDepth sc ec rest := by omega
        rw [h2]
      | some k =>
        simp only [hfz, Option.map_some']
        have h2 : i + 1 + k = i + (k + 1) := by omega
        rw [h2]
    · by_cases hec : c = ec
      · have hecsc : ¬ ec = sc := fun h => hsc (hec.trans h)
        have hdelta : specDelta sc ec c = -1 := by simp [specDelta, hsc, hec, hecsc]
        by_cases hz : d - 1 = 0
        · have h0 : (d : Int) + -1 = 0 := by omega
          simp only [scanLoop, firstZero, if_neg hsc, if_pos hec, if_pos hz, hdelta, if_pos h0]
          rw [hz]
        · have h0 : ¬ ((d : Int) + -1 = 0) := by omega
          have hd1 : (d : Int) + -1 = d - 1 := by omega
          simp only [scanLoop, firstZero, if_neg hsc, if_pos hec, if_neg hz, hdelta,
            if_neg h0, hd1]
          rw [ih (d - 1) (i + 1) (by omega)]
          cases hfz : firstZero sc ec rest (d - 1) with
          | none =>
            simp only [hfz, Option.map_none']
            rw [specDepth_cons, hdelta]
            have h2 : d + (-1 + specDepth sc ec rest) = d - 1 + specDepth sc ec rest := by
              omega
            rw [h2]
          | some k =>
            simp only [hfz, Option.map_some']
            have h2 : i + 1 + k = i + (k + 1) := by omega
            rw [h2]
      · have hdelta : specDelta sc ec c = 0 := by simp [specDelta, hsc, hec]
        have h0 : ¬ ((d : Int) + 0 = 0) := by omega
        have h0d : ¬ ((d : Int) = 0) := by omega
        have hd1 : (d : Int) + 0 = d := by omega
        simp only [scanLoop, firstZero, if_neg hsc, if_neg hec, hdelta, if_neg h0, hd1,
          if_neg h0d]
        rw [ih d (i + 1) hd]
        cases hfz : firstZero sc ec rest d with
        | none =>
          simp only [hfz, Option.map_none']
          rw [specDepth_cons, hdelta]
          have h2 : d + (0 + specDepth sc ec rest) = d + specDepth sc ec rest := by omega
          rw [h2]
        | some k =>
          simp only [hfz, Option.map_some']
          have h2 : i + 1 + k = i + (k + 1) := by omega
          rw [h2]

/-- The recursive first-zero position equals the least `n` (through `find?`
over all positions) at which the running depth after `n + 1` characters is
zero, shifted to a 1-based count. -/
theorem firstZero_eq_find (sc ec : Char) :
    ∀ (l : List Char) (d : Int),
      firstZero sc ec l d =
        ((List.range l.length).find?
          (fun n => decide (d + specDepth sc ec (l.take (n + 1)) = 0))).map
            (fun k => k + 1) := by
  intro l
  induction l with
  | nil =>
    intro d
    simp [firstZero]
  | cons c rest ih =>
    intro d
    rw [List.length_cons, List.range_succ_eq_map, List.find?_cons]
    have htake1 : (c :: rest).take (0 + 1) = [c] := by simp
    by_cases h0 : d + specDelta sc ec c = 0
    · have hp0 : (fun n => decide (d + specDepth sc ec ((c :: rest).take (n + 1)) = 0)) 0
          = true := by
        simp only [htake1, specDepth, List.map_cons, List.map_nil, List.sum_cons,
          List.sum_nil, decide_eq_true_eq]
        omega
      simp only [firstZero, if_pos h0, hp0]
      rfl
    · have hp0 : (fun n => decide (d + specDepth sc ec ((c :: rest).take (n + 1)) = 0)) 0
          = false := by
        simp only [htake1, specDepth, List.map_cons, List.map_nil, List.sum_cons,
          List.sum_nil, decide_eq_false_iff_not]
        omega
      simp only [firstZero, if_neg h0, hp0]
      rw [List.find?_map]
      have hfun :
          ((fun n => decide (d + specDepth sc ec ((c :: rest).take (n + 1)) = 0)) ∘ Nat.succ)
            = (fun n =>
                decide ((d + specDelta sc ec c) + specDepth sc ec (rest.take (n + 1)) = 0)) := by
        funext n
        simp only [Function.comp_apply, Nat.succ_eq_add_one, List.take_succ_cons,
          specDepth_cons]
        exact decide_eq_decide.mpr (by constructor <;> intro hx <;> omega)
      rw [hfun, ih (d + specDelta sc ec c)]

/-- On the slice that starts with the opening delimiter, the Rust loop state
(`end_idx`, final depth, and the `end_idx == 0 || depth != 0` rejection)
computes exactly the specification's candidate: the slice through the first
position at which the depth returns to zero, if any. -/
theorem scan_candidate_eq_spec (sc ec : Char) (t : List Char) :
    (if (scanLoop sc ec (sc :: t) 0 0 0).1 = 0 ∨ (scanLoop sc ec (sc :: t) 0 0 0).2 ≠ 0
     then none
     else some ((sc :: t).take (scanLoop sc ec (sc :: t) 0 0 0).1)) =
      (match (List.range (sc :: t).length).find?
          (fun n => decide (specDepth sc ec ((sc :: t).take (n + 1)) = 0)) with
       | some n => some ((sc :: t).take (n + 1))
       | none => (none : Option (List Char))) := by
  have hdelta : specDelta sc ec sc = 1 := by simp [specDelta]
  have hstep : scanLoop sc ec (sc :: t) 0 0 0 = scanLoop sc ec t 1 1 0 := by
    simp [scanLoop]
  have hfz : firstZero sc ec (sc :: t) 0 = (firstZero sc ec t 1).map (fun k => k + 1) := by
    simp [firstZero, hdelta]
  have hfind := firstZero_eq_find sc ec (sc :: t) 0
  have hpred : (fun n => decide ((0 : Int) + specDepth sc ec ((sc :: t).take (n + 1)) = 0))
      = (fun n => decide (specDepth sc ec ((sc :: t).take (n + 1)) = 0)) := by
    funext n
    exact decide_eq_decide.mpr (by constructor <;> intro hx <;> omega)
  rw [hpred] at hfind
  rw [hfz] at hfind
  rw [hstep, scanLoop_eq_firstZero sc ec t 1 1 (by omega)]
  cases hf1 : firstZero sc ec t 1 with
  | none =>
    rw [hf1] at hfind
    simp only [Option.map_none'] at hfind
    cases hf2 : (List.range (sc :: t).length).find?
        (fun n => decide (specDepth sc ec ((sc :: t).take (n + 1)) = 0)) with
    | none => simp
    | some m =>
      rw [hf2] at hfind
      simp at hfind
  | some k =>
    rw [hf1] at hfind
    simp only [Option.map_some'] at hfind
    cases hf2 : (List.range (sc :: t).length).find?
        (fun n => decide (specDepth sc ec ((sc :: t).take (n + 1)) = 0)) with
    | none =>
      rw [hf2] at hfind
      simp at hfind
    | some m =>
      rw [hf2] at hfind
      simp only [Option.map_some', Option.some.injEq] at hfind
      have hmk : m = k := by omega
      subst hmk
      have hcond : ¬ (((1 + m : Nat) = 0) ∨ ((0 : Int) ≠ 0)) := by
        rintro (h | h)
        · omega
        · exact h rfl
      dsimp only
      rw [if_neg hcond]
      have h1k : 1 + m = m + 1 := by omega
      rw [h1k]

/-- When `sc` occurs in `l`, dropping the prefix of non-`sc` characters
leaves a list that starts with `sc`. -/
theorem dropWhile_ne_of_mem {sc : Char} :
    ∀ l : List Char, sc ∈ l → ∃ t, l.dropWhile (fun c => ¬ c = sc) = sc :: t := by
  intro l h
  induction l with
  | nil => cases h
  | cons c rest ih =>
    by_cases hc : c = sc
    · refine ⟨rest, ?_⟩
      rw [List.dropWhile_cons, if_neg (by simp [hc])]
      rw [hc]
    · have hmem : sc ∈ rest := by
        cases List.mem_cons.mp h with
        | inl he => exact absurd he.symm hc
        | inr hm => exact hm
      obtain ⟨t, ht⟩ := ih hmem
      refine ⟨t, ?_⟩
      rw [List.dropWhile_cons, if_pos (by simp [hc])]
      exact ht

/-- A `findIdx?` with an equality test fails exactly on lists not containing
the character (the model of `input.find(start_char)` being `None`). -/
theorem findIdx?_eq_none_iff_not_mem {sc : Char} (l : List Char) :
    l.findIdx? (fun c => c = sc) = none ↔ sc ∉ l := by
  rw [List.findIdx?_eq_none_iff]
  constructor
  · intro h hmem
    have h2 := h sc hmem
    simp at h2
  · intro h x hx
    rcases Decidable.eq_or_ne x sc with he | hne
    · exact absurd (he ▸ hx) h
    · simp [hne]

/-- C1: for every input text, choice of delimiter kind and deserializer,
typed extraction equals the specification's procedure: find the first
opening delimiter, depth-track to the first return to zero, hand the
candidate (delimiters inclusive) to the deserializer; absence of an opening
delimiter, a depth that never returns to zero, or deserializer failure all
give `none` — never an error. -/
theorem c1_extract_json_spec {α : Type} (p : LlmProfile) (deser : String → Option α)
    (input : String) (is_object : Bool) :
    p.extract_json deser input is_object =
      (specExtractCandidate input.toList is_object).bind (fun l => deser (String.mk l)) := by
  unfold LlmProfile.extract_json specExtractCandidate
  by_cases hmem : (if is_object then '{' else '[') ∈ input.toList
  · rw [if_pos hmem]
    obtain ⟨t, ht⟩ := dropWhile_ne_of_mem input.toList hmem
    cases hf : input.toList.findIdx? (fun c => c = if is_object then '{' else '[') with
    | none =>
      exact absurd ((findIdx?_eq_none_iff_not_mem input.toList).mp hf) (not_not_intro hmem)
    | some j =>
      dsimp only
      rw [hf]
      dsimp only
      rw [ht]
      rw [← scan_candidate_eq_spec (if is_object then '{' else '[')
        (if is_object then '}' else ']') t]
      by_cases hcond :
          (scanLoop (if is_object then '{' else '[') (if is_object then '}' else ']')
            ((if is_object then '{' else '[') :: t) 0 0 0).1 = 0 ∨
          (scanLoop (if is_object then '{' else '[') (if is_object then '}' else ']')
            ((if is_object then '{' else '[') :: t) 0 0 0).2 ≠ 0
      · rw [if_pos hcond, if_pos hcond]
        rfl
      · rw [if_neg hcond, if_neg hcond]
        rfl
  · rw [if_neg hmem]
    dsimp only
    rw [(findIdx?_eq_none_iff_not_mem input.toList).mpr hmem]
    rfl

/-- C3: flexible extraction tries, in strict order, object extraction, array
extraction, the first double-quoted string literal (with backslash escapes),
and the first bare scalar literal (`true`/`false`/`null`/number as a whole
word), returning the first successful deserialization and `none` if all four
fail; concretely it yields the bare scalar `42` on "the answer is 42." and
the quoted string "done" on "result: \"done\"". -/
theorem c3_extract_json_flexible {α : Type} (p : LlmProfile) (deser : String → Option α)
    (input : String) :
    (p.extract_json_flexible deser input =
      (p.extract_json deser input true).orElse (fun _ =>
       (p.extract_json deser input false).orElse (fun _ =>
        ((stringFind input.toList).bind (fun m => deser (String.mk m))).orElse (fun _ =>
         (scalarFind input.toList).bind (fun m => deser (String.mk m)))))) ∧
    p.extract_json_flexible deserI64 "the answer is 42." = some 42 ∧
    p.extract_json_flexible deserString "result: \"done\"" = some "done" := by
  refine ⟨?_, by rfl, by rfl⟩
  unfold LlmProfile.extract_json_flexible
  cases p.extract_json deser input true with
  | some r => rfl
  | none =>
    cases p.extract_json deser input false with
    | some r => rfl
    | none =>
      cases (stringFind input.toList).bind (fun m => deser (String.mk m)) with
      | some v => rfl
      | none => rfl

/-- UTF-8 length of a cons. -/
theorem utf8Len_cons (c : Char) (l : List Char) :
    utf8Len (c :: l) = c.utf8Size + utf8Len l := by
  simp [utf8Len]

/-- UTF-8 length of an append. -/
theorem utf8Len_append (a b : List Char) :
    utf8Len (a ++ b) = utf8Len a + utf8Len b := by
  simp [utf8Len]

/-- Every depth value reached by the scan is nonnegative once the depth is
positive (it only returns to zero at the break). -/
theorem depthTrace_nonneg (sc ec : Char) :
    ∀ (l : List Char) (d : Int), 1 ≤ d → ∀ x ∈ depthTrace sc ec l d, 0 ≤ x := by
  intro l
  induction l with
  | nil =>
    intro d _hd x hx
    simp [depthTrace] at hx
  | cons c rest ih =>
    intro d hd x hx
    by_cases hsc : c = sc
    · simp only [depthTrace, if_pos hsc] at hx
      rcases List.mem_cons.mp hx with he | hm
      · omega
      · exact ih (d + 1) (by omega) x hm
    · by_cases hec : c = ec
      · by_cases hz : d - 1 = 0
        · simp only [depthTrace, if_neg hsc, if_pos hec, if_pos hz] at hx
          rcases List.mem_cons.mp hx with he | hm
          · omega
          · simp at hm
        · simp only [depthTrace, if_neg hsc, if_pos hec, if_neg hz] at hx
          rcases List.mem_cons.mp hx with he | hm
          · omega
          · exact ih (d - 1) (by omega) x hm
      · simp only [depthTrace, if_neg hsc, if_neg hec] at hx
        rcases List.mem_cons.mp hx with he | hm
        · omega
        · exact ih d hd x hm

/-- On the slice `extract_json` actually scans (from the first opening
delimiter, depth 0), every depth value is nonnegative. -/
theorem depthTrace_slice_nonneg (sc ec : Char) (l : List Char) :
    ∀ x ∈ depthTrace sc ec (l.dropWhile (fun c => ¬ c = sc)) 0, 0 ≤ x := by
  intro x hx
  by_cases hmem : sc ∈ l
  · obtain ⟨t, ht⟩ := dropWhile_ne_of_mem l hmem
    rw [ht] at hx
    simp only [depthTrace, if_pos rfl] at hx
    rcases List.mem_cons.mp hx with he | hm
    · omega
    · have h1 : (0 : Int) + 1 = 1 := by omega
      rw [h1] at hm
      exact depthTrace_nonneg sc ec t 1 (by omega) x hm
  · have hnil : l.dropWhile (fun c => ¬ c = sc) = [] := by
      rw [List.dropWhile_eq_nil_iff]
      intro c hc
      rcases Decidable.eq_or_ne c sc with he | hne
      · exact absurd (he ▸ hc) hmem
      · simp [hne]
    rw [hnil] at hx
    simp [depthTrace] at hx

/-- When the byte-tracked scan breaks, the byte offset it returns is the
UTF-8 length of a prefix of the scanned slice (the closing delimiter being a
one-byte character). -/
theorem scanLoopB_end_boundary (sc ec : Char) (hec1 : ec.utf8Size = 1) :
    ∀ (l : List Char) (d : Int) (i j : Nat) (dep : Int),
      scanLoopB sc ec l d i 0 = (j, dep) →
      j = 0 ∨ ∃ pfx sfx, l = pfx ++ sfx ∧ j = i + utf8Len pfx := by
  intro l
  induction l with
  | nil =>
    intro d i j dep h
    left
    simp only [scanLoopB, Prod.mk.injEq] at h
    omega
  | cons c rest ih =>
    intro d i j dep h
    by_cases hsc : c = sc
    · simp only [scanLoopB, if_pos hsc] at h
      rcases ih (d + 1) (i + c.utf8Size) j dep h with h0 | ⟨p, q, hpq, hj⟩
      · exact Or.inl h0
      · exact Or.inr ⟨c :: p, q, by rw [hpq, List.cons_append],
          by rw [utf8Len_cons]; omega⟩
    · by_cases hecc : c = ec
      · by_cases hz : d - 1 = 0
        · simp only [scanLoopB, if_neg hsc, if_pos hecc, if_pos hz, Prod.mk.injEq] at h
          right
          refine ⟨[c], rest, rfl, ?_⟩
          have hsz : c.utf8Size = 1 := by rw [hecc, hec1]
          rw [utf8Len_cons]
          simp only [utf8Len, List.map_nil, List.sum_nil]
          omega
        · simp only [scanLoopB, if_neg hsc, if_pos hecc, if_neg hz] at h
          rcases ih (d - 1) (i + c.utf8Size) j dep h with h0 | ⟨p, q, hpq, hj⟩
          · exact Or.inl h0
          · exact Or.inr ⟨c :: p, q, by rw [hpq, List.cons_append],
              by rw [utf8Len_cons]; omega⟩
      · simp only [scanLoopB, if_neg hsc, if_neg hecc] at h
        rcases ih d (i + c.utf8Size) j dep h with h0 | ⟨p, q, hpq, hj⟩
        · exact Or.inl h0
        · exact Or.inr ⟨c :: p, q, by rw [hpq, List.cons_append],
            by rw [utf8Len_cons]; omega⟩

/-- The byte-tracked scan and the char-tracked scan of `extract_json` agree:
same break/no-break outcome and same final depth. -/
theorem scanLoopB_eq_scanLoop (sc ec : Char) :
    ∀ (l : List Char) (d : Int) (i ib : Nat),
      ((scanLoopB sc ec l d ib 0).1 = 0 ↔ (scanLoop sc ec l d i 0).1 = 0) ∧
      (scanLoopB sc ec l d ib 0).2 = (scanLoop sc ec l d i 0).2 := by
  intro l
  induction l with
  | nil =>
    intro d i ib
    simp [scanLoopB, scanLoop]
  | cons c rest ih =>
    intro d i ib
    by_cases hsc : c = sc
    · simp only [scanLoopB, scanLoop, if_pos hsc]
      exact ih (d + 1) (i + 1) (ib + c.utf8Size)
    · by_cases hec : c = ec
      · by_cases hz : d - 1 = 0
        · simp only [scanLoopB, scanLoop, if_neg hsc, if_pos hec, if_pos hz]
          refine ⟨?_, trivial⟩
          omega
        · simp only [scanLoopB, scanLoop, if_neg hsc, if_pos hec, if_neg hz]
          exact ih (d - 1) (i + 1) (ib + c.utf8Size)
      · simp only [scanLoopB, scanLoop, if_neg hsc, if_neg hec]
        exact ih d (i + 1) (ib + c.utf8Size)

/-- C10: `extract_json` is safe on every input (the Lean model is total by
construction): (1) the depth counter never goes below zero on the slice the
scan actually runs on — depth is positive from the first opening delimiter
until the break at zero; (2) the starting byte offset `find` returns is a
UTF-8 character boundary of the input; (3) so is `start_idx + i + 1`, the end
offset produced by `char_indices` plus the one-byte closing delimiter,
whenever the byte-tracked scan breaks; and (4) the byte-tracked scan agrees
with the char-tracked scan used by `extract_json` (same break outcome, same
final depth), so these offsets are the ones the slicing uses. -/
theorem c10_extract_json_safety (input : String) (is_object : Bool) :
    (∀ x ∈ depthTrace (if is_object then '{' else '[') (if is_object then '}' else ']')
        (input.toList.dropWhile (fun c => ¬ c = if is_object then '{' else '[')) 0,
      0 ≤ x) ∧
    IsCharBoundary input.toList
      (byteStartIdx input.toList (if is_object then '{' else '[')) ∧
    (∀ (j : Nat) (dep : Int),
      scanLoopB (if is_object then '{' else '[') (if is_object then '}' else ']')
          (input.toList.dropWhile (fun c => ¬ c = if is_object then '{' else '[')) 0 0 0
        = (j, dep) →
      j ≠ 0 →
      IsCharBoundary input.toList
        (byteStartIdx input.toList (if is_object then '{' else '[') + j)) ∧
    (∀ (d : Int) (i ib : Nat),
      ((scanLoopB (if is_object then '{' else '[') (if is_object then '}' else ']')
          (input.toList.dropWhile (fun c => ¬ c = if is_object then '{' else '[')) d ib 0).1
            = 0 ↔
       (scanLoop (if is_object then '{' else '[') (if is_object then '}' else ']')
          (input.toList.dropWhile (fun c => ¬ c = if is_object then '{' else '[')) d i 0).1
            = 0) ∧
      (scanLoopB (if is_object then '{' else '[') (if is_object then '}' else ']')
          (input.toList.dropWhile (fun c => ¬ c = if is_object then '{' else '[')) d ib 0).2
        = (scanLoop (if is_object then '{' else '[') (if is_object then '}' else ']')
          (input.toList.dropWhile (fun c => ¬ c = if is_object then '{' else '[')) d i 0).2) := by
  refine ⟨depthTrace_slice_nonneg _ _ _, ?_, ?_, fun d i ib => scanLoopB_eq_scanLoop _ _ _ d i ib⟩
  · exact ⟨input.toList.takeWhile (fun c => ¬ c = if is_object then '{' else '['),
      input.toList.dropWhile (fun c => ¬ c = if is_object then '{' else '['),
      (List.takeWhile_append_dropWhile _ _).symm, rfl⟩
  · intro j dep h hj
    have hec1 : (if is_object then '}' else ']').utf8Size = 1 := by
      cases is_object <;> rfl
    rcases scanLoopB_end_boundary _ _ hec1 _ 0 0 j dep h with h0 | ⟨p, q, hpq, hjlen⟩
    · exact absurd h0 hj
    · refine ⟨input.toList.takeWhile (fun c => ¬ c = if is_object then '{' else '[') ++ p,
        q, ?_, ?_⟩
      · rw [List.append_assoc, ← hpq, List.takeWhile_append_dropWhile]
      · rw [utf8Len_append, byteStartIdx]
        omega

/-- C10 witness: on "a{b}" in object mode the byte scan breaks at relative
offset 3, and start + 3 = 4 is a character boundary. -/
theorem c10_extract_json_safety_witness :
    IsCharBoundary "a\x7bb\x7d".toList (byteStartIdx "a\x7bb\x7d".toList '{' + 3) :=
  (c10_extract_json_safety "a\x7bb\x7d" true).2.2.1 3 0 rfl (by decide)
